import Mathlib

/-!
# Verification of the 2048-Tiny board engine

Shallow embedding of the board mechanics of `main.py` (class `Board`,
dataclass `MoveResult`, and the game-loop wiring of `play`) together with
proofs of the specification claims.

The grid is a `List (List Nat)` mirroring the Python list-of-lists; the
random source `random.Random` is modelled as an abstract single stream of
draws (`Rng`): each call to `choice`/`random` consumes one position of the
stream, so that determinism and "restart continues the stream" are faithfully
represented.
-/

/-- The 4×4 grid: Python `List[List[int]]`, `0` = empty. -/
abbrev Grid := List (List Nat)

/-- `self.grid[r][c]` with Python-style reads modelled totally:
out-of-range reads default to `0`. -/
def getCell (g : Grid) (r c : Nat) : Nat := (g.getD r []).getD c 0

/-- `self.grid[r][c] = v`: functional update of one cell. -/
def setCell (g : Grid) (r c v : Nat) : Grid := g.set r ((g.getD r []).set c v)

/-- Return type of `Board.move` (dataclass `MoveResult`). -/
structure MoveResult where
  moved : Bool
  score_gain : Nat
deriving Repr, DecidableEq

/-- Abstract model of `random.Random`: one stream of raw draws, indexed by a
position counter `pos`.  `choice` on an `n`-element list consumes one draw and
selects index `vals pos % n`; `random()` consumes one draw and yields
`floats pos`.  Both operations advance the single shared position, as the
single underlying Mersenne-Twister stream does. -/
structure Rng where
  vals : Nat → Nat
  floats : Nat → ℚ
  pos : Nat

/-- `rng.choice(seq)` on a sequence of length `n`: returns the selected index
and the advanced generator. -/
def Rng.choiceIdx (rng : Rng) (n : Nat) : Nat × Rng :=
  (rng.vals rng.pos % n, { rng with pos := rng.pos + 1 })

/-- `rng.random()`: a uniform draw in `[0,1)` and the advanced generator. -/
def Rng.nextFloat (rng : Rng) : ℚ × Rng :=
  (rng.floats rng.pos, { rng with pos := rng.pos + 1 })

/-- `[[0] * 4 for _ in range(4)]`. -/
def emptyGrid : Grid := List.replicate 4 (List.replicate 4 0)

/-- `[(r, c) for r in range(4) for c in range(4) if self.grid[r][c] == 0]`. -/
def emptyCells (g : Grid) : List (Nat × Nat) :=
  (List.range 4).flatMap fun r =>
    (List.range 4).filterMap fun c =>
      if getCell g r c = 0 then some (r, c) else none

/-- `Board._spawn_random_tile`: place a 2 (90%) or 4 (10%) on a uniformly
random empty cell; if no empties remain, do nothing. -/
def spawnRandomTile (g : Grid) (rng : Rng) : Grid × Rng :=
  let empties := emptyCells g
  if empties.isEmpty then (g, rng)
  else
    let ch := rng.choiceIdx empties.length
    let rc := empties.getD ch.1 (0, 0)
    let fl := ch.2.nextFloat
    (setCell g rc.1 rc.2 (if fl.1 < 1 / 10 then 4 else 2), fl.2)

/-- ASCII lower-casing of one character (`str.lower` restricted to the
characters the game loop can feed in). -/
def lowerChar (c : Char) : Char :=
  if 65 ≤ c.toNat ∧ c.toNat ≤ 90 then Char.ofNat (c.toNat + 32) else c

/-- `direction.lower()`. -/
def lowerStr (s : String) : String := ⟨s.data.map lowerChar⟩

/-- `line(idx)` inside `Board.move`: read row/column `idx` in slide order. -/
def line (g : Grid) (dir : String) (idx : Nat) : List Nat :=
  if dir = "a" then g.getD idx []
  else if dir = "d" then (g.getD idx []).reverse
  else if dir = "w" then (List.range 4).map fun r => getCell g r idx
  else (List.range 4).reverse.map fun r => getCell g r idx

/-- `write_line(idx, vals)` inside `Board.move`: write a processed line back
in the original orientation (`for r, v in enumerate(vals)` for columns). -/
def write_line (g : Grid) (dir : String) (idx : Nat) (vals : List Nat) : Grid :=
  if dir = "a" then g.set idx vals
  else if dir = "d" then g.set idx vals.reverse
  else if dir = "w" then
    vals.enum.foldl (fun g2 p => setCell g2 p.1 idx p.2) g
  else
    vals.enum.foldl (fun g2 p => setCell g2 (3 - p.1) idx p.2) g

/-- The `while j < len(compact)` merge-once scan of `Board.move`: returns the
merged line and the score gained in this line. -/
def mergePass : List Nat → List Nat × Nat
  | [] => ([], 0)
  | [a] => ([a], 0)
  | a :: b :: rest =>
    if a = b then
      let m := mergePass rest
      (a * 2 :: m.1, a * 2 + m.2)
    else
      let m := mergePass (b :: rest)
      (a :: m.1, m.2)

/-- One line of `Board.move`: compact (drop zeros), merge once, pad with
zeros to `SIZE = 4`. -/
def moveLine (arr : List Nat) : List Nat × Nat :=
  let compact := arr.filter fun x => x != 0
  let m := mergePass compact
  (m.1 ++ List.replicate (4 - m.1.length) 0, m.2)

/-- The `for i in range(SIZE)` loop of `Board.move`: process each row/column
independently in the chosen orientation, accumulating `score_gain`. -/
def moveGrid (g : Grid) (dir : String) : Grid × Nat :=
  (List.range 4).foldl
    (fun p i =>
      let m := moveLine (line p.1 dir i)
      (write_line p.1 dir i m.1, p.2 + m.2))
    (g, 0)

/-- The game state (class `Board`): RNG, 4×4 grid, cumulative score. -/
structure Board where
  rng : Rng
  grid : Grid
  score : Nat

/-- `Board.__init__`: zero grid, zero score, two spawned tiles. -/
def Board.init (rng : Rng) : Board :=
  let s1 := spawnRandomTile emptyGrid rng
  let s2 := spawnRandomTile s1.1 s1.2
  { rng := s2.2, grid := s2.1, score := 0 }

/-- `Board.move(direction)`: lower-case, reject unknown directions, slide and
merge every line, then — only if the grid changed — add the gain to the score
and spawn a tile. -/
def Board.move (b : Board) (direction : String) : Board × MoveResult :=
  let d := lowerStr direction
  if d ∈ (["w", "a", "s", "d"] : List String) then
    let res := moveGrid b.grid d
    if res.1 = b.grid then
      ({ b with grid := res.1 }, { moved := false, score_gain := res.2 })
    else
      let sp := spawnRandomTile res.1 b.rng
      ({ rng := sp.2, grid := sp.1, score := b.score + res.2 },
       { moved := true, score_gain := res.2 })
  else (b, { moved := false, score_gain := 0 })

/-- `Board.has_moves`: true if an empty cell exists or any right/down
neighbour equals the current cell. -/
def has_moves (g : Grid) : Bool :=
  if g.any (fun row => row.contains 0) then true
  else
    (List.range 4).any fun r =>
      (List.range 4).any fun c =>
        (decide (r + 1 < 4) && (getCell g (r + 1) c == getCell g r c)) ||
        (decide (c + 1 < 4) && (getCell g r (c + 1) == getCell g r c))

/-- `Board.restart`: clear the grid, zero the score, spawn two tiles — the
existing RNG stream is reused, not reseeded. -/
def Board.restart (b : Board) : Board :=
  let s1 := spawnRandomTile emptyGrid b.rng
  let s2 := spawnRandomTile s1.1 s1.2
  { rng := s2.2, grid := s2.1, score := 0 }

/-- One player action sent to the engine by the game loop of `play`. -/
inductive Cmd where
  | move (dir : String)
  | restart

/-- Apply one command to the board, as the loop of `play` does. -/
def Board.step (b : Board) : Cmd → Board
  | .move d => (b.move d).1
  | .restart => b.restart

/-- Drive the board through a sequence of commands. -/
def runCmds (b : Board) (cs : List Cmd) : Board := cs.foldl Board.step b

/-- The (grid, score) pair after every prefix of a command sequence. -/
def trajectory (b : Board) (cs : List Cmd) : List (Grid × Nat) :=
  (cs.scanl Board.step b).map fun x => (x.grid, x.score)

/-- Drive the board through a sequence of `move` calls only. -/
def runMoves (b : Board) (ds : List String) : Board :=
  ds.foldl (fun x d => (x.move d).1) b

/-- The `score_gain` reported by each move of a sequence. -/
def moveGains (b : Board) : List String → List Nat
  | [] => []
  | d :: ds => ((b.move d).2).score_gain :: moveGains (b.move d).1 ds

/-- The list of merge events (post-merge tile values) produced by one
merge-once scan, in scan order. -/
def mergeEvents : List Nat → List Nat
  | [] => []
  | [_] => []
  | a :: b :: rest =>
    if a = b then a * 2 :: mergeEvents rest else mergeEvents (b :: rest)

/-- The merge events of one whole `Board.move` line loop, grid threaded
exactly as in `moveGrid`. -/
def moveGridEvents (g : Grid) (dir : String) : List Nat :=
  ((List.range 4).foldl
    (fun p i =>
      let arr := line p.1 dir i
      (write_line p.1 dir i (moveLine arr).1,
       p.2 ++ mergeEvents (arr.filter fun x => x != 0)))
    (g, ([] : List Nat))).2

/-- The merge events of one `Board.move` call (empty for an unrecognized
direction, which merges nothing). -/
def Board.moveEvents (b : Board) (direction : String) : List Nat :=
  let d := lowerStr direction
  if d ∈ (["w", "a", "s", "d"] : List String) then moveGridEvents b.grid d
  else []

/-- The merge events of every move of a sequence, concatenated. -/
def runEvents (b : Board) : List String → List Nat
  | [] => []
  | d :: ds => b.moveEvents d ++ runEvents (b.move d).1 ds

/-- Well-formedness: the grid is a 4×4 matrix. -/
def Wf (g : Grid) : Prop := g.length = 4 ∧ ∀ row ∈ g, row.length = 4

/-- A legal tile value: a power of two reachable by repeated doubling
from 2, i.e. `2 ^ (k + 1)` for some `k`. -/
def TileVal (v : Nat) : Prop := ∃ k, v = 2 ^ (k + 1)

/-- The grid invariant: 4×4 shape and every non-zero cell a legal tile. -/
def GridInv (g : Grid) : Prop :=
  Wf g ∧ ∀ row ∈ g, ∀ v ∈ row, v ≠ 0 → TileVal v

/-! ## List index helpers -/

theorem getD_set_ne {α : Type _} (l : List α) (i j : Nat) (h : j ≠ i) (a d : α) :
    (l.set i a).getD j d = l.getD j d := by
  simp [List.getD, List.get?_eq_getElem?, List.getElem?_set_ne (Ne.symm h)]

theorem getD_set_self {α : Type _} (l : List α) (i : Nat) (h : i < l.length) (a d : α) :
    (l.set i a).getD i d = a := by
  simp [List.getD, List.get?_eq_getElem?, List.getElem?_set_self h]

theorem getD_mem {α : Type _} (l : List α) (i : Nat) (h : i < l.length) (d : α) :
    l.getD i d ∈ l := by
  rw [List.getD_eq_getElem l d h]
  exact List.getElem_mem h

theorem len4_destruct {α : Type _} (l : List α) (h : l.length = 4) :
    ∃ a b c d, l = [a, b, c, d] := by
  match l, h with
  | [a, b, c, d], _ => exact ⟨a, b, c, d, rfl⟩

/-! ## `mergePass` and `moveLine` lemmas -/

theorem mergePass_length_le (c : List Nat) : (mergePass c).1.length ≤ c.length := by
  induction c using mergePass.induct with
  | case1 => simp [mergePass]
  | case2 a => simp [mergePass]
  | case3 b rest ih => simp [mergePass]; omega
  | case4 a b rest hne ih =>
    simp only [mergePass, if_neg hne, List.length_cons]
    simp only [List.length_cons] at ih
    omega

theorem mergePass_gain_lt (c : List Nat) (h : (mergePass c).2 ≠ 0) :
    (mergePass c).1.length < c.length := by
  induction c using mergePass.induct with
  | case1 => simp [mergePass] at h
  | case2 a => simp [mergePass] at h
  | case3 b rest ih =>
    have := mergePass_length_le rest
    simp [mergePass]; omega
  | case4 a b rest hne ih =>
    simp only [mergePass, if_neg hne] at h ⊢
    have := ih h
    simp only [List.length_cons] at this ⊢
    omega

theorem mergePass_ne_zero (c : List Nat) (hc : ∀ v ∈ c, v ≠ 0) :
    ∀ v ∈ (mergePass c).1, v ≠ 0 := by
  induction c using mergePass.induct with
  | case1 => simp [mergePass]
  | case2 a => simpa [mergePass] using hc
  | case3 b rest ih =>
    simp only [mergePass, if_pos rfl]
    intro v hv
    rcases List.mem_cons.1 hv with h | h
    · subst h
      have hb : b ≠ 0 := hc b (by simp)
      positivity
    · exact ih (fun v hv => hc v (by simp [hv])) v h
  | case4 a b rest hne ih =>
    simp only [mergePass, if_neg hne]
    intro v hv
    rcases List.mem_cons.1 hv with h | h
    · subst h; exact hc v (by simp)
    · exact ih (fun x hx => hc x (List.mem_cons_of_mem a hx)) v h

theorem mergePass_tile (c : List Nat) (hc : ∀ v ∈ c, TileVal v) :
    ∀ v ∈ (mergePass c).1, TileVal v := by
  induction c using mergePass.induct with
  | case1 => simp [mergePass]
  | case2 a => simpa [mergePass] using hc
  | case3 b rest ih =>
    simp only [mergePass, if_pos rfl]
    intro v hv
    rcases List.mem_cons.1 hv with h | h
    · subst h
      obtain ⟨k, hk⟩ := hc b (by simp)
      exact ⟨k + 1, by rw [hk]; ring⟩
    · exact ih (fun v hv => hc v (by simp [hv])) v h
  | case4 a b rest hne ih =>
    simp only [mergePass, if_neg hne]
    intro v hv
    rcases List.mem_cons.1 hv with h | h
    · subst h; exact hc v (by simp)
    · exact ih (fun x hx => hc x (List.mem_cons_of_mem a hx)) v h

theorem mergePass_gain_eq_events (c : List Nat) :
    (mergePass c).2 = (mergeEvents c).sum := by
  induction c using mergePass.induct with
  | case1 => simp [mergePass, mergeEvents]
  | case2 a => simp [mergePass, mergeEvents]
  | case3 b rest ih => simp [mergePass, mergeEvents, ih]
  | case4 a b rest hne ih => simp [mergePass, mergeEvents, hne, ih]

theorem moveLine_length (l : List Nat) (hl : l.length = 4) :
    (moveLine l).1.length = 4 := by
  have h1 : (l.filter fun x => x != 0).length ≤ l.length :=
    List.length_filter_le _ _
  have h2 := mergePass_length_le (l.filter fun x => x != 0)
  simp only [moveLine, List.length_append, List.length_replicate]
  omega

theorem filter_ne_zero_eq (l : List Nat) :
    ∀ v ∈ l.filter (fun x => x != 0), v ≠ 0 := by
  intro v hv
  have := (List.mem_filter.1 hv).2
  simpa using this

/-- If the slide-and-merge of a line returns the line unchanged, the line
produced no score: a merge strictly shrinks the compacted sequence. -/
theorem moveLine_fixed_gain (l : List Nat) (h : (moveLine l).1 = l) :
    (moveLine l).2 = 0 := by
  by_contra hg
  have hgain : (mergePass (l.filter fun x => x != 0)).2 ≠ 0 := by
    simpa [moveLine] using hg
  have hlt := mergePass_gain_lt _ hgain
  have hmnz : ∀ v ∈ (mergePass (l.filter fun x => x != 0)).1, v ≠ 0 :=
    mergePass_ne_zero _ (filter_ne_zero_eq l)
  have hfl : (moveLine l).1.filter (fun x => x != 0)
      = (mergePass (l.filter fun x => x != 0)).1 := by
    simp only [moveLine, List.filter_append]
    rw [List.filter_eq_self.2 (fun a ha => by simpa using hmnz a ha),
      List.filter_replicate_of_neg (by simp), List.append_nil]
  rw [h] at hfl
  have := congrArg List.length hfl
  omega

/-! ## `setCell` and `getCell` lemmas -/

theorem getCell_setCell_ne (g : Grid) (r c v r2 c2 : Nat) (h : r2 ≠ r ∨ c2 ≠ c) :
    getCell (setCell g r c v) r2 c2 = getCell g r2 c2 := by
  rcases h with h | h
  · unfold getCell setCell
    rw [getD_set_ne _ _ _ h]
  · unfold getCell setCell
    by_cases hrr : r2 = r
    · subst hrr
      by_cases hr : r2 < g.length
      · rw [getD_set_self _ _ hr, getD_set_ne _ _ _ h]
      · rw [List.set_eq_of_length_le (by omega)]
    · rw [getD_set_ne _ _ _ hrr]

theorem getCell_setCell_self (g : Grid) (r c v : Nat) (hwf : Wf g)
    (hr : r < 4) (hc : c < 4) :
    getCell (setCell g r c v) r c = v := by
  unfold getCell setCell
  have hrl : r < g.length := by rw [hwf.1]; omega
  have hcl : c < (g.getD r []).length := by
    rw [hwf.2 _ (getD_mem g r hrl [])]; omega
  rw [getD_set_self _ _ hrl, getD_set_self _ _ hcl]

theorem setCell_wf (g : Grid) (r c v : Nat) (hwf : Wf g) : Wf (setCell g r c v) := by
  by_cases hr : r < g.length
  · refine ⟨by simp [setCell, hwf.1], ?_⟩
    intro row hrow
    rcases List.mem_or_eq_of_mem_set hrow with h | h
    · exact hwf.2 _ h
    · subst h
      rw [List.length_set]
      exact hwf.2 _ (getD_mem g r hr [])
  · unfold setCell
    rw [List.set_eq_of_length_le (by omega)]
    exact hwf

theorem setCell_values (g : Grid) (r c v : Nat) :
    ∀ row ∈ setCell g r c v, ∀ x ∈ row, (∃ row2 ∈ g, x ∈ row2) ∨ x = v := by
  intro row hrow x hx
  rcases List.mem_or_eq_of_mem_set hrow with h | h
  · exact Or.inl ⟨row, h, hx⟩
  · subst h
    rcases List.mem_or_eq_of_mem_set hx with h2 | h2
    · by_cases hr : r < g.length
      · exact Or.inl ⟨g.getD r [], getD_mem g r hr [], h2⟩
      · rw [List.getD_eq_default _ _ (by omega)] at h2
        simp at h2
    · exact Or.inr h2

/-! ## Direction-specific reductions of `line` and `write_line` -/

theorem line_of_a (g : Grid) (i : Nat) : line g "a" i = g.getD i [] := rfl

theorem line_of_d (g : Grid) (i : Nat) : line g "d" i = (g.getD i []).reverse := rfl

theorem line_of_w (g : Grid) (i : Nat) :
    line g "w" i = [getCell g 0 i, getCell g 1 i, getCell g 2 i, getCell g 3 i] := rfl

theorem line_of_s (g : Grid) (i : Nat) :
    line g "s" i = [getCell g 3 i, getCell g 2 i, getCell g 1 i, getCell g 0 i] := rfl

theorem write_of_a (g : Grid) (i : Nat) (vals : List Nat) :
    write_line g "a" i vals = g.set i vals := rfl

theorem write_of_d (g : Grid) (i : Nat) (vals : List Nat) :
    write_line g "d" i vals = g.set i vals.reverse := rfl

theorem write_of_w (g : Grid) (i : Nat) (v0 v1 v2 v3 : Nat) :
    write_line g "w" i [v0, v1, v2, v3]
      = setCell (setCell (setCell (setCell g 0 i v0) 1 i v1) 2 i v2) 3 i v3 := rfl

theorem write_of_s (g : Grid) (i : Nat) (v0 v1 v2 v3 : Nat) :
    write_line g "s" i [v0, v1, v2, v3]
      = setCell (setCell (setCell (setCell g 3 i v0) 2 i v1) 1 i v2) 0 i v3 := rfl

theorem dir_cases (d : String) (hd : d ∈ (["w", "a", "s", "d"] : List String)) :
    d = "w" ∨ d = "a" ∨ d = "s" ∨ d = "d" := by simpa using hd

theorem write_w_as_foldl (g : Grid) (i : Nat) (vals : List Nat) :
    write_line g "w" i vals = vals.enum.foldl (fun g2 p => setCell g2 p.1 i p.2) g := rfl

theorem write_s_as_foldl (g : Grid) (i : Nat) (vals : List Nat) :
    write_line g "s" i vals = vals.enum.foldl (fun g2 p => setCell g2 (3 - p.1) i p.2) g := rfl

/-- Writes confined to column `cc` do not disturb reads in any other column. -/
theorem getCell_foldl_setCell (ps : List (Nat × Nat)) (f : Nat × Nat → Nat) (cc : Nat) :
    ∀ (h : Grid) (r c : Nat), c ≠ cc →
      getCell (ps.foldl (fun g2 p => setCell g2 (f p) cc p.2) h) r c = getCell h r c := by
  induction ps with
  | nil => intro h r c _; rfl
  | cons p ps ih =>
    intro h r c hc
    rw [List.foldl_cons, ih _ r c hc, getCell_setCell_ne _ _ _ _ _ _ (Or.inr hc)]

theorem foldl_setCell_wf (ps : List (Nat × Nat)) (f : Nat × Nat → Nat) (cc : Nat) :
    ∀ (h : Grid), Wf h → Wf (ps.foldl (fun g2 p => setCell g2 (f p) cc p.2) h) := by
  induction ps with
  | nil => intro h hwf; exact hwf
  | cons p ps ih =>
    intro h hwf
    rw [List.foldl_cons]
    exact ih _ (setCell_wf _ _ _ _ hwf)

/-- `write_line` preserves the 4×4 shape. -/
theorem write_line_wf (g : Grid) (d : String) (hd : d ∈ (["w", "a", "s", "d"] : List String))
    (i : Nat) (vals : List Nat) (hwf : Wf g) (hlen : vals.length = 4) :
    Wf (write_line g d i vals) := by
  rcases dir_cases d hd with h | h | h | h <;> subst h
  · rw [write_w_as_foldl]
    exact foldl_setCell_wf _ _ _ _ hwf
  · rw [write_of_a]
    refine ⟨by simp [hwf.1], ?_⟩
    intro row hrow
    rcases List.mem_or_eq_of_mem_set hrow with h | h
    · exact hwf.2 _ h
    · subst h; exact hlen
  · rw [write_s_as_foldl]
    exact foldl_setCell_wf _ _ _ _ hwf
  · rw [write_of_d]
    refine ⟨by simp [hwf.1], ?_⟩
    intro row hrow
    rcases List.mem_or_eq_of_mem_set hrow with h | h
    · exact hwf.2 _ h
    · subst h; simp [hlen]

/-- Writing line `j` does not disturb any other line `i` of the same
orientation. -/
theorem line_write_ne (g : Grid) (d : String) (hd : d ∈ (["w", "a", "s", "d"] : List String))
    (j : Nat) (vals : List Nat) (i : Nat) (hij : i ≠ j) :
    line (write_line g d j vals) d i = line g d i := by
  rcases dir_cases d hd with h | h | h | h <;> subst h
  · rw [write_w_as_foldl, line_of_w, line_of_w,
      getCell_foldl_setCell vals.enum Prod.fst j g 0 i hij,
      getCell_foldl_setCell vals.enum Prod.fst j g 1 i hij,
      getCell_foldl_setCell vals.enum Prod.fst j g 2 i hij,
      getCell_foldl_setCell vals.enum Prod.fst j g 3 i hij]
  · rw [write_of_a, line_of_a, line_of_a, getD_set_ne _ _ _ hij]
  · rw [write_s_as_foldl, line_of_s, line_of_s,
      getCell_foldl_setCell vals.enum (fun p => 3 - p.1) j g 3 i hij,
      getCell_foldl_setCell vals.enum (fun p => 3 - p.1) j g 2 i hij,
      getCell_foldl_setCell vals.enum (fun p => 3 - p.1) j g 1 i hij,
      getCell_foldl_setCell vals.enum (fun p => 3 - p.1) j g 0 i hij]
  · rw [write_of_d, line_of_d, line_of_d, getD_set_ne _ _ _ hij]

/-- Reading back the line just written returns exactly the written values. -/
theorem line_write_self (g : Grid) (d : String) (hd : d ∈ (["w", "a", "s", "d"] : List String))
    (hwf : Wf g) (i : Nat) (hi : i < 4) (vals : List Nat) (hlen : vals.length = 4) :
    line (write_line g d i vals) d i = vals := by
  obtain ⟨v0, v1, v2, v3, rfl⟩ := len4_destruct vals hlen
  have hgl : i < g.length := by rw [hwf.1]; omega
  rcases dir_cases d hd with h | h | h | h <;> subst h
  · have wf1 := setCell_wf g 0 i v0 hwf
    have wf2 := setCell_wf _ 1 i v1 wf1
    have wf3 := setCell_wf _ 2 i v2 wf2
    rw [write_of_w, line_of_w,
      getCell_setCell_ne _ 3 i v3 0 i (Or.inl (by omega)),
      getCell_setCell_ne _ 2 i v2 0 i (Or.inl (by omega)),
      getCell_setCell_ne _ 1 i v1 0 i (Or.inl (by omega)),
      getCell_setCell_self g 0 i v0 hwf (by omega) hi,
      getCell_setCell_ne _ 3 i v3 1 i (Or.inl (by omega)),
      getCell_setCell_ne _ 2 i v2 1 i (Or.inl (by omega)),
      getCell_setCell_self _ 1 i v1 wf1 (by omega) hi,
      getCell_setCell_ne _ 3 i v3 2 i (Or.inl (by omega)),
      getCell_setCell_self _ 2 i v2 wf2 (by omega) hi,
      getCell_setCell_self _ 3 i v3 wf3 (by omega) hi]
  · rw [write_of_a, line_of_a, getD_set_self _ _ hgl]
  · have wf1 := setCell_wf g 3 i v0 hwf
    have wf2 := setCell_wf _ 2 i v1 wf1
    have wf3 := setCell_wf _ 1 i v2 wf2
    rw [write_of_s, line_of_s,
      getCell_setCell_ne _ 0 i v3 3 i (Or.inl (by omega)),
      getCell_setCell_ne _ 1 i v2 3 i (Or.inl (by omega)),
      getCell_setCell_ne _ 2 i v1 3 i (Or.inl (by omega)),
      getCell_setCell_self g 3 i v0 hwf (by omega) hi,
      getCell_setCell_ne _ 0 i v3 2 i (Or.inl (by omega)),
      getCell_setCell_ne _ 1 i v2 2 i (Or.inl (by omega)),
      getCell_setCell_self _ 2 i v1 wf1 (by omega) hi,
      getCell_setCell_ne _ 0 i v3 1 i (Or.inl (by omega)),
      getCell_setCell_self _ 1 i v2 wf2 (by omega) hi,
      getCell_setCell_self _ 0 i v3 wf3 (by omega) hi]
  · rw [write_of_d, line_of_d, getD_set_self _ _ hgl, List.reverse_reverse]

/-- Every line of a well-formed grid has length 4. -/
theorem line_length (g : Grid) (d : String) (hd : d ∈ (["w", "a", "s", "d"] : List String))
    (hwf : Wf g) (i : Nat) (hi : i < 4) : (line g d i).length = 4 := by
  have hgl : i < g.length := by rw [hwf.1]; omega
  have hrow : (g.getD i []).length = 4 := hwf.2 _ (getD_mem g i hgl [])
  rcases dir_cases d hd with h | h | h | h <;> subst h
  · rw [line_of_w]; rfl
  · rw [line_of_a]; exact hrow
  · rw [line_of_s]; rfl
  · rw [line_of_d, List.length_reverse]; exact hrow

/-- A cell of a well-formed grid sits in the row the grid stores it in. -/
theorem cell_mem_row (g : Grid) (hwf : Wf g) (r c : Nat) (hr : r < 4) (hc : c < 4) :
    ∃ row ∈ g, getCell g r c ∈ row := by
  have hrl : r < g.length := by rw [hwf.1]; omega
  refine ⟨g.getD r [], getD_mem g r hrl [], ?_⟩
  unfold getCell
  exact getD_mem _ c (by rw [hwf.2 _ (getD_mem g r hrl [])]; omega) 0

/-- Every value read by `line` is a value stored in the grid. -/
theorem line_values (g : Grid) (d : String) (hd : d ∈ (["w", "a", "s", "d"] : List String))
    (hwf : Wf g) (i : Nat) (hi : i < 4) :
    ∀ v ∈ line g d i, ∃ row ∈ g, v ∈ row := by
  have hgl : i < g.length := by rw [hwf.1]; omega
  intro v hv
  rcases dir_cases d hd with h | h | h | h <;> subst h
  · rw [line_of_w] at hv
    simp only [List.mem_cons, List.not_mem_nil, or_false] at hv
    rcases hv with h | h | h | h <;> rw [h] <;>
      [exact cell_mem_row g hwf 0 i (by omega) hi;
       exact cell_mem_row g hwf 1 i (by omega) hi;
       exact cell_mem_row g hwf 2 i (by omega) hi;
       exact cell_mem_row g hwf 3 i (by omega) hi]
  · rw [line_of_a] at hv
    exact ⟨g.getD i [], getD_mem g i hgl [], hv⟩
  · rw [line_of_s] at hv
    simp only [List.mem_cons, List.not_mem_nil, or_false] at hv
    rcases hv with h | h | h | h <;> rw [h] <;>
      [exact cell_mem_row g hwf 3 i (by omega) hi;
       exact cell_mem_row g hwf 2 i (by omega) hi;
       exact cell_mem_row g hwf 1 i (by omega) hi;
       exact cell_mem_row g hwf 0 i (by omega) hi]
  · rw [line_of_d, List.mem_reverse] at hv
    exact ⟨g.getD i [], getD_mem g i hgl [], hv⟩

/-- Every cell of a well-formed grid is read by some line of any
orientation. -/
theorem cell_mem_line (g : Grid) (d : String) (hd : d ∈ (["w", "a", "s", "d"] : List String))
    (hwf : Wf g) (r c : Nat) (hr : r < 4) (hc : c < 4) :
    ∃ i, i < 4 ∧ getCell g r c ∈ line g d i := by
  have hrl : r < g.length := by rw [hwf.1]; omega
  have hrow : (g.getD r []).length = 4 := hwf.2 _ (getD_mem g r hrl [])
  rcases dir_cases d hd with h | h | h | h <;> subst h
  · exact ⟨c, hc, by rw [line_of_w]; interval_cases r <;> simp⟩
  · refine ⟨r, hr, ?_⟩
    rw [line_of_a]
    exact getD_mem _ c (by omega) 0
  · exact ⟨c, hc, by rw [line_of_s]; interval_cases r <;> simp⟩
  · refine ⟨r, hr, ?_⟩
    rw [line_of_d, List.mem_reverse]
    exact getD_mem _ c (by omega) 0

/-! ## Characterization of the whole line loop of `Board.move` -/

/-- One iteration of the `for i in range(SIZE)` loop of `Board.move`
(proof-side unfolding of the `moveGrid` fold). -/
def moveStep (d : String) (p : Grid × Nat) (i : Nat) : Grid × Nat :=
  let m := moveLine (line p.1 d i)
  (write_line p.1 d i m.1, p.2 + m.2)

theorem moveGrid_eq_steps (g : Grid) (d : String) :
    moveGrid g d = moveStep d (moveStep d (moveStep d (moveStep d (g, 0) 0) 1) 2) 3 := rfl

theorem step_facts (g : Grid) (d : String) (hd : d ∈ (["w", "a", "s", "d"] : List String))
    (hwf : Wf g) (j : Nat) (hj : j < 4) :
    Wf (write_line g d j (moveLine (line g d j)).1)
    ∧ line (write_line g d j (moveLine (line g d j)).1) d j = (moveLine (line g d j)).1
    ∧ ∀ i, i ≠ j → line (write_line g d j (moveLine (line g d j)).1) d i = line g d i := by
  have hlen := moveLine_length _ (line_length g d hd hwf j hj)
  exact ⟨write_line_wf g d hd j _ hwf hlen,
    line_write_self g d hd hwf j hj _ hlen,
    fun i hij => line_write_ne g d hd j _ i hij⟩

/-- The line loop of `Board.move`, characterized: the resulting grid is
well-formed, every line of the result is the slide-and-merge of the same
line of the input, and the total gain is the sum of the per-line gains —
all computed from the ORIGINAL grid, because writing one line never
disturbs the others. -/
theorem moveGrid_lines (g : Grid) (d : String) (hd : d ∈ (["w", "a", "s", "d"] : List String))
    (hwf : Wf g) :
    Wf (moveGrid g d).1
    ∧ (∀ i, i < 4 → line (moveGrid g d).1 d i = (moveLine (line g d i)).1)
    ∧ (moveGrid g d).2
        = (moveLine (line g d 0)).2 + (moveLine (line g d 1)).2
          + (moveLine (line g d 2)).2 + (moveLine (line g d 3)).2 := by
  obtain ⟨wf1, self1, ne1⟩ := step_facts g d hd hwf 0 (by omega)
  have e1 : moveStep d (g, 0) 0
      = (write_line g d 0 (moveLine (line g d 0)).1, 0 + (moveLine (line g d 0)).2) := rfl
  obtain ⟨g1, hg1⟩ : ∃ x, write_line g d 0 (moveLine (line g d 0)).1 = x := ⟨_, rfl⟩
  rw [hg1] at e1 wf1 self1 ne1
  have rd1 : line g1 d 1 = line g d 1 := ne1 1 (by omega)
  obtain ⟨wf2, self2, ne2⟩ := step_facts g1 d hd wf1 1 (by omega)
  rw [rd1] at wf2 self2 ne2
  have e2 : moveStep d (g1, 0 + (moveLine (line g d 0)).2) 1
      = (write_line g1 d 1 (moveLine (line g1 d 1)).1,
         0 + (moveLine (line g d 0)).2 + (moveLine (line g1 d 1)).2) := rfl
  rw [rd1] at e2
  obtain ⟨g2, hg2⟩ : ∃ x, write_line g1 d 1 (moveLine (line g d 1)).1 = x := ⟨_, rfl⟩
  rw [hg2] at e2 wf2 self2 ne2
  have rd2 : line g2 d 2 = line g d 2 := by rw [ne2 2 (by omega), ne1 2 (by omega)]
  obtain ⟨wf3, self3, ne3⟩ := step_facts g2 d hd wf2 2 (by omega)
  rw [rd2] at wf3 self3 ne3
  have e3 : moveStep d (g2, 0 + (moveLine (line g d 0)).2 + (moveLine (line g d 1)).2) 2
      = (write_line g2 d 2 (moveLine (line g2 d 2)).1,
         0 + (moveLine (line g d 0)).2 + (moveLine (line g d 1)).2
           + (moveLine (line g2 d 2)).2) := rfl
  rw [rd2] at e3
  obtain ⟨g3, hg3⟩ : ∃ x, write_line g2 d 2 (moveLine (line g d 2)).1 = x := ⟨_, rfl⟩
  rw [hg3] at e3 wf3 self3 ne3
  have rd3 : line g3 d 3 = line g d 3 := by
    rw [ne3 3 (by omega), ne2 3 (by omega), ne1 3 (by omega)]
  obtain ⟨wf4, self4, ne4⟩ := step_facts g3 d hd wf3 3 (by omega)
  rw [rd3] at wf4 self4 ne4
  have e4 : moveStep d (g3, 0 + (moveLine (line g d 0)).2 + (moveLine (line g d 1)).2
        + (moveLine (line g d 2)).2) 3
      = (write_line g3 d 3 (moveLine (line g3 d 3)).1,
         0 + (moveLine (line g d 0)).2 + (moveLine (line g d 1)).2
           + (moveLine (line g d 2)).2 + (moveLine (line g3 d 3)).2) := rfl
  rw [rd3] at e4
  obtain ⟨g4, hg4⟩ : ∃ x, write_line g3 d 3 (moveLine (line g d 3)).1 = x := ⟨_, rfl⟩
  rw [hg4] at e4 wf4 self4 ne4
  have hfinal : moveGrid g d
      = (g4, 0 + (moveLine (line g d 0)).2 + (moveLine (line g d 1)).2
          + (moveLine (line g d 2)).2 + (moveLine (line g d 3)).2) := by
    rw [moveGrid_eq_steps, e1, e2, e3, e4]
  rw [hfinal]
  refine ⟨wf4, ?_, by simp⟩
  intro i hi
  interval_cases i
  · rw [ne4 0 (by omega), ne3 0 (by omega), ne2 0 (by omega)]; exact self1
  · rw [ne4 1 (by omega), ne3 1 (by omega)]; exact self2
  · rw [ne4 2 (by omega)]; exact self3
  · exact self4

/-- A no-op line loop gains no score: every line must be a fixed point of
its own slide-and-merge, and a fixed line gains nothing. -/
theorem moveGrid_noop_gain (g : Grid) (d : String)
    (hd : d ∈ (["w", "a", "s", "d"] : List String)) (hwf : Wf g)
    (he : (moveGrid g d).1 = g) : (moveGrid g d).2 = 0 := by
  obtain ⟨_, hlines, hgain⟩ := moveGrid_lines g d hd hwf
  have hz : ∀ i, i < 4 → (moveLine (line g d i)).2 = 0 := by
    intro i hi
    apply moveLine_fixed_gain
    have h := hlines i hi
    rw [he] at h
    exact h.symm
  rw [hgain, hz 0 (by omega), hz 1 (by omega), hz 2 (by omega), hz 3 (by omega)]

/-! ## Score gain versus merge events -/

theorem foldGain_eq_foldEvents (is : List Nat) :
    ∀ (g : Grid) (d : String) (n : Nat) (ev : List Nat), n = ev.sum →
    (is.foldl (fun p i =>
        let m := moveLine (line p.1 d i)
        (write_line p.1 d i m.1, p.2 + m.2)) (g, n)).2
    = ((is.foldl (fun p i =>
        let arr := line p.1 d i
        (write_line p.1 d i (moveLine arr).1,
         p.2 ++ mergeEvents (arr.filter fun x => x != 0))) (g, ev)).2).sum := by
  induction is with
  | nil => intro g d n ev h; simpa using h
  | cons i is ih =>
    intro g d n ev h
    rw [List.foldl_cons, List.foldl_cons]
    apply ih
    rw [List.sum_append, ← h]
    congr 1
    exact mergePass_gain_eq_events _

/-- The score gained by one line loop equals the sum of its merge events. -/
theorem moveGridEvents_eq (g : Grid) (d : String) :
    (moveGrid g d).2 = (moveGridEvents g d).sum :=
  foldGain_eq_foldEvents (List.range 4) g d 0 [] rfl

/-! ## `emptyCells` and `spawnRandomTile` lemmas -/

theorem mem_emptyCells (g : Grid) (p : Nat × Nat) :
    p ∈ emptyCells g ↔ p.1 < 4 ∧ p.2 < 4 ∧ getCell g p.1 p.2 = 0 := by
  obtain ⟨r, c⟩ := p
  simp only [emptyCells, List.mem_flatMap, List.mem_filterMap, List.mem_range]
  constructor
  · rintro ⟨a, ha, b, hb, hif⟩
    split at hif
    · obtain ⟨rfl, rfl⟩ := Prod.mk.injEq .. ▸ Option.some.injEq .. ▸ hif
      simp_all
    · simp at hif
  · rintro ⟨hr, hc, h0⟩
    exact ⟨r, hr, c, hc, by rw [if_pos h0]⟩

theorem spawn_of_no_empty (g : Grid) (rng : Rng) (h : emptyCells g = []) :
    spawnRandomTile g rng = (g, rng) := by
  unfold spawnRandomTile
  rw [if_pos (List.isEmpty_iff.2 h)]

/-- The unfolded form of a spawn on a grid with at least one empty cell:
one draw selects the cell, one draw selects the value. -/
theorem spawn_of_empty (g : Grid) (rng : Rng) (h : emptyCells g ≠ []) :
    spawnRandomTile g rng =
      (setCell g
        ((emptyCells g).getD (rng.vals rng.pos % (emptyCells g).length) (0, 0)).1
        ((emptyCells g).getD (rng.vals rng.pos % (emptyCells g).length) (0, 0)).2
        (if rng.floats (rng.pos + 1) < 1 / 10 then 4 else 2),
       { rng with pos := rng.pos + 2 }) := by
  unfold spawnRandomTile Rng.choiceIdx Rng.nextFloat
  rw [if_neg (by simp [List.isEmpty_eq_false, h])]

theorem spawn_cell_mem (g : Grid) (rng : Rng) (h : emptyCells g ≠ []) :
    (emptyCells g).getD (rng.vals rng.pos % (emptyCells g).length) (0, 0) ∈ emptyCells g := by
  have hlen : 0 < (emptyCells g).length := List.length_pos.2 h
  exact getD_mem _ _ (Nat.mod_lt _ hlen) _

theorem spawn_wf (g : Grid) (rng : Rng) (hwf : Wf g) :
    Wf (spawnRandomTile g rng).1 := by
  by_cases h : emptyCells g = []
  · rw [spawn_of_no_empty g rng h]; exact hwf
  · rw [spawn_of_empty g rng h]; exact setCell_wf _ _ _ _ hwf

theorem spawn_rng_stream (g : Grid) (rng : Rng) :
    ((spawnRandomTile g rng).2).vals = rng.vals
    ∧ ((spawnRandomTile g rng).2).floats = rng.floats := by
  by_cases h : emptyCells g = []
  · rw [spawn_of_no_empty g rng h]; exact ⟨rfl, rfl⟩
  · rw [spawn_of_empty g rng h]; exact ⟨rfl, rfl⟩

theorem spawn_rng_pos (g : Grid) (rng : Rng) (h : emptyCells g ≠ []) :
    ((spawnRandomTile g rng).2).pos = rng.pos + 2 := by
  rw [spawn_of_empty g rng h]

/-- After one spawn on the empty grid, an empty cell still exists. -/
theorem emptyCells_after_first_spawn (rng : Rng) :
    emptyCells ((spawnRandomTile emptyGrid rng).1) ≠ [] := by
  have h : emptyCells emptyGrid ≠ [] := by decide
  rw [spawn_of_empty emptyGrid rng h]
  obtain ⟨r, c⟩ :=
    (emptyCells emptyGrid).getD (rng.vals rng.pos % (emptyCells emptyGrid).length) (0, 0)
  by_cases h00 : r = 0 ∧ c = 0
  · apply List.ne_nil_of_mem (a := ((0 : Nat), (1 : Nat)))
    rw [mem_emptyCells]
    refine ⟨by omega, by omega, ?_⟩
    rw [getCell_setCell_ne _ _ _ _ _ _ (Or.inr (by omega))]
    decide
  · apply List.ne_nil_of_mem (a := ((0 : Nat), (0 : Nat)))
    rw [mem_emptyCells]
    rcases not_and_or.1 h00 with hne | hne
    · exact ⟨by omega, by omega, by
        rw [getCell_setCell_ne _ _ _ _ _ _ (Or.inl (Ne.symm hne))]; decide⟩
    · exact ⟨by omega, by omega, by
        rw [getCell_setCell_ne _ _ _ _ _ _ (Or.inr (Ne.symm hne))]; decide⟩

/-! ## Preservation of the grid invariant -/

theorem emptyGrid_inv : GridInv emptyGrid := by
  refine ⟨⟨rfl, ?_⟩, ?_⟩
  · intro row hrow
    rw [List.eq_of_mem_replicate hrow]
    rfl
  · intro row hrow v hv hne
    rw [List.eq_of_mem_replicate hrow] at hv
    exact absurd (List.eq_of_mem_replicate hv) hne

theorem spawn_inv (g : Grid) (rng : Rng) (hinv : GridInv g) :
    GridInv (spawnRandomTile g rng).1 := by
  by_cases h : emptyCells g = []
  · rw [spawn_of_no_empty g rng h]; exact hinv
  · rw [spawn_of_empty g rng h]
    refine ⟨setCell_wf _ _ _ _ hinv.1, ?_⟩
    intro row hrow v hv hne
    rcases setCell_values g _ _ _ row hrow v hv with ⟨row2, hrow2, hvrow2⟩ | hval
    · exact hinv.2 row2 hrow2 v hvrow2 hne
    · rw [hval]
      split
      · exact ⟨1, rfl⟩
      · exact ⟨0, rfl⟩

theorem moveGrid_values (g : Grid) (d : String)
    (hd : d ∈ (["w", "a", "s", "d"] : List String)) (hinv : GridInv g) :
    ∀ row ∈ (moveGrid g d).1, ∀ v ∈ row, v ≠ 0 → TileVal v := by
  obtain ⟨hwf, hvals⟩ := hinv
  obtain ⟨wfm, hlines, _⟩ := moveGrid_lines g d hd hwf
  intro row hrow v hv hvne
  obtain ⟨r, hr, hrowr⟩ := List.mem_iff_getElem.1 hrow
  obtain ⟨c, hc, hvc⟩ := List.mem_iff_getElem.1 hv
  have hr4 : r < 4 := by rw [wfm.1] at hr; exact hr
  have hc4 : c < 4 := by rw [wfm.2 row hrow] at hc; exact hc
  have hcell : getCell (moveGrid g d).1 r c = v := by
    unfold getCell
    rw [List.getD_eq_getElem _ _ hr, hrowr, List.getD_eq_getElem _ _ hc, hvc]
  obtain ⟨i, hi, hmem⟩ := cell_mem_line (moveGrid g d).1 d hd wfm r c hr4 hc4
  rw [hcell, hlines i hi] at hmem
  have hmem2 : v ∈ (mergePass ((line g d i).filter fun x => x != 0)).1
      ++ List.replicate (4 - (mergePass ((line g d i).filter fun x => x != 0)).1.length) 0 :=
    hmem
  have hmp : v ∈ (mergePass ((line g d i).filter fun x => x != 0)).1 := by
    rcases List.mem_append.1 hmem2 with h | h
    · exact h
    · exact absurd (List.eq_of_mem_replicate h) hvne
  refine mergePass_tile _ ?_ v hmp
  intro x hx
  have hxl := List.mem_filter.1 hx
  have hxne : x ≠ 0 := by simpa using hxl.2
  obtain ⟨row2, hrow2, hxrow2⟩ := line_values g d hd hwf i hi x hxl.1
  exact hvals row2 hrow2 x hxrow2 hxne

theorem move_inv (b : Board) (d : String) (hinv : GridInv b.grid) :
    GridInv (((b.move d).1).grid) := by
  by_cases hd : lowerStr d ∈ (["w", "a", "s", "d"] : List String)
  · by_cases he : (moveGrid b.grid (lowerStr d)).1 = b.grid
    · simp only [Board.move, if_pos hd, if_pos he]
      rw [he]
      exact hinv
    · simp only [Board.move, if_pos hd, if_neg he]
      exact spawn_inv _ _ ⟨(moveGrid_lines b.grid _ hd hinv.1).1,
        moveGrid_values b.grid _ hd hinv⟩
  · simp only [Board.move, if_neg hd]
    exact hinv

theorem restart_inv (b : Board) : GridInv ((b.restart).grid) :=
  spawn_inv _ _ (spawn_inv _ _ emptyGrid_inv)

theorem init_inv (rng : Rng) : GridInv ((Board.init rng).grid) :=
  spawn_inv _ _ (spawn_inv _ _ emptyGrid_inv)

/-! ## Board-level step lemmas -/

theorem move_wf (b : Board) (d : String) (hwf : Wf b.grid) :
    Wf (((b.move d).1).grid) := by
  by_cases hd : lowerStr d ∈ (["w", "a", "s", "d"] : List String)
  · by_cases he : (moveGrid b.grid (lowerStr d)).1 = b.grid
    · simp only [Board.move, if_pos hd, if_pos he]
      rw [he]; exact hwf
    · simp only [Board.move, if_pos hd, if_neg he]
      exact spawn_wf _ _ (moveGrid_lines b.grid _ hd hwf).1
  · simp only [Board.move, if_neg hd]
    exact hwf

theorem move_score (b : Board) (d : String) (hwf : Wf b.grid) :
    ((b.move d).1).score = b.score + (b.moveEvents d).sum := by
  by_cases hd : lowerStr d ∈ (["w", "a", "s", "d"] : List String)
  · by_cases he : (moveGrid b.grid (lowerStr d)).1 = b.grid
    · simp only [Board.move, Board.moveEvents, if_pos hd, if_pos he]
      rw [← moveGridEvents_eq, moveGrid_noop_gain b.grid _ hd hwf he]
      omega
    · simp only [Board.move, Board.moveEvents, if_pos hd, if_neg he]
      rw [← moveGridEvents_eq]
  · simp only [Board.move, Board.moveEvents, if_neg hd]
    simp

theorem move_gain_events (b : Board) (d : String) :
    ((b.move d).2).score_gain = (b.moveEvents d).sum := by
  by_cases hd : lowerStr d ∈ (["w", "a", "s", "d"] : List String)
  · by_cases he : (moveGrid b.grid (lowerStr d)).1 = b.grid
    · simp only [Board.move, Board.moveEvents, if_pos hd, if_pos he]
      exact moveGridEvents_eq _ _
    · simp only [Board.move, Board.moveEvents, if_pos hd, if_neg he]
      exact moveGridEvents_eq _ _
  · simp only [Board.move, Board.moveEvents, if_neg hd]
    rfl

theorem move_score_mono (b : Board) (d : String) : b.score ≤ ((b.move d).1).score := by
  by_cases hd : lowerStr d ∈ (["w", "a", "s", "d"] : List String)
  · by_cases he : (moveGrid b.grid (lowerStr d)).1 = b.grid
    · simp only [Board.move, if_pos hd, if_pos he]
      exact Nat.le_refl _
    · simp only [Board.move, if_pos hd, if_neg he]
      exact Nat.le_add_right _ _
  · simp only [Board.move, if_neg hd]
    exact Nat.le_refl _


theorem runMoves_score (ds : List String) : ∀ b : Board, Wf b.grid →
    (runMoves b ds).score = b.score + (runEvents b ds).sum := by
  induction ds with
  | nil => intro b _; simp [runMoves, runEvents]
  | cons d ds ih =>
    intro b hwf
    have h1 : runMoves b (d :: ds) = runMoves ((b.move d).1) ds := rfl
    have h2 : runEvents b (d :: ds) = b.moveEvents d ++ runEvents (b.move d).1 ds := rfl
    rw [h1, h2, ih _ (move_wf b d hwf), move_score b d hwf, List.sum_append]
    omega

theorem restart_score (b : Board) : (b.restart).score = 0 := rfl

theorem restart_stream (b : Board) :
    ((b.restart).rng).vals = b.rng.vals
    ∧ ((b.restart).rng).floats = b.rng.floats
    ∧ ((b.restart).rng).pos = b.rng.pos + 4 := by
  have h1 : emptyCells emptyGrid ≠ [] := by decide
  simp only [Board.restart]
  refine ⟨?_, ?_, ?_⟩
  · rw [(spawn_rng_stream _ _).1, (spawn_rng_stream _ _).1]
  · rw [(spawn_rng_stream _ _).2, (spawn_rng_stream _ _).2]
  · rw [spawn_rng_pos _ _ (emptyCells_after_first_spawn b.rng), spawn_rng_pos _ _ h1]

/-! ## `has_moves` helpers -/

theorem any_zero_iff (g : Grid) (hwf : Wf g) :
    (g.any fun row => row.contains 0) = true
      ↔ ∃ r, r < 4 ∧ ∃ c, c < 4 ∧ getCell g r c = 0 := by
  rw [List.any_eq_true]
  constructor
  · rintro ⟨row, hrow, hcont⟩
    have h0 : (0 : Nat) ∈ row := by simpa [List.contains] using hcont
    obtain ⟨r, hr, hrowr⟩ := List.mem_iff_getElem.1 hrow
    obtain ⟨c, hc, hvc⟩ := List.mem_iff_getElem.1 h0
    refine ⟨r, by rw [hwf.1] at hr; exact hr, c,
      by rw [hwf.2 row hrow] at hc; exact hc, ?_⟩
    unfold getCell
    rw [List.getD_eq_getElem _ _ hr, hrowr, List.getD_eq_getElem _ _ hc, hvc]
  · rintro ⟨r, hr, c, hc, h0⟩
    have hrl : r < g.length := by rw [hwf.1]; omega
    have hcl : c < (g.getD r []).length := by
      rw [hwf.2 _ (getD_mem g r hrl [])]; omega
    refine ⟨g.getD r [], getD_mem g r hrl [], ?_⟩
    have hm : (0 : Nat) ∈ g.getD r [] := by
      rw [← h0]
      exact getD_mem _ c hcl 0
    simpa [List.contains] using hm

/-! ## Witness fixtures -/

/-- A concrete generator for witnesses: all draws 0. -/
def rngZero : Rng := ⟨fun _ => 0, fun _ => 0, 0⟩

/-- A board whose only nonzero row is already left-packed with no merge
possible (the fixture of `test_no_spawn_on_illegal_move`). -/
def packedBoard : Board :=
  ⟨rngZero, [[2, 4, 8, 16], [0, 0, 0, 0], [0, 0, 0, 0], [0, 0, 0, 0]], 0⟩

/-! ## Claims -/

/-- **C1**: merging is single-pass and a merged tile is never merged again
within the same move: a left move on a grid whose first row is `[v, v, v, 0]`
(`v ≠ 0`, in particular `[2, 2, 2, 0]`) leaves first row `[2v, v, 0, 0]` after
the slide-and-merge phase of `move` — the third tile does not merge with the
freshly created `2v`. -/
theorem claim1_single_merge (v : Nat) (hv : v ≠ 0) (r1 r2 r3 : List Nat) :
    (moveGrid [[v, v, v, 0], r1, r2, r3] "a").1.getD 0 [] = [v * 2, v, 0, 0] := by
  have h0 : (moveGrid [[v, v, v, 0], r1, r2, r3] "a").1.getD 0 []
      = (moveLine [v, v, v, 0]).1 := rfl
  have hb : (v != 0) = true := by simpa using hv
  rw [h0]
  simp [moveLine, mergePass, List.filter, hb]

/-- **C1 witness**: the literal instance `[2, 2, 2, 0] ↦ [4, 2, 0, 0]`. -/
theorem claim1_single_merge_witness :
    (moveGrid [[2, 2, 2, 0], [0, 0, 0, 0], [0, 0, 0, 0], [0, 0, 0, 0]] "a").1.getD 0 []
      = [4, 2, 0, 0] :=
  claim1_single_merge 2 (by decide) [0, 0, 0, 0] [0, 0, 0, 0] [0, 0, 0, 0]

/-- **C2**: if `move` reports `moved = false` then the whole board — grid,
score and RNG stream — is left exactly as it was, and in particular no tile
is spawned. -/
theorem claim2_noop_frame (b : Board) (dir : String)
    (h : ((b.move dir).2).moved = false) : (b.move dir).1 = b := by
  by_cases hd : lowerStr dir ∈ (["w", "a", "s", "d"] : List String)
  · by_cases he : (moveGrid b.grid (lowerStr dir)).1 = b.grid
    · simp only [Board.move, if_pos hd, if_pos he]
      rw [he]
    · simp only [Board.move, if_pos hd, if_neg he] at h
      simp at h
  · simp only [Board.move, if_neg hd]

/-- **C2 witness**: a left move on the already-left-packed, no-merge board
changes nothing. -/
theorem claim2_noop_frame_witness : (packedBoard.move "a").1 = packedBoard :=
  claim2_noop_frame packedBoard "a" (by decide)

/-- **C7**: any input that is not a recognized direction is a silent no-op:
`move` returns `moved = false`, `score_gain = 0`, and the board — grid, score
and RNG — is untouched, exactly the same shape of result as a recognized
direction that changes nothing. -/
theorem claim7_invalid_noop (b : Board) (dir : String)
    (h : lowerStr dir ∉ (["w", "a", "s", "d"] : List String)) :
    b.move dir = (b, { moved := false, score_gain := 0 }) := by
  simp only [Board.move, if_neg h]

/-- **C7 witness**: the unrecognized input `"x"`. -/
theorem claim7_invalid_noop_witness :
    packedBoard.move "x" = (packedBoard, { moved := false, score_gain := 0 }) :=
  claim7_invalid_noop packedBoard "x" (by decide)

/-- **C10**: a move that reports `moved = false` always reports
`score_gain = 0`: a merge strictly shrinks a line's compacted sequence, so a
positive gain forces a grid change. -/
theorem claim10_no_move_no_gain (b : Board) (dir : String) (hwf : Wf b.grid)
    (h : ((b.move dir).2).moved = false) : ((b.move dir).2).score_gain = 0 := by
  by_cases hd : lowerStr dir ∈ (["w", "a", "s", "d"] : List String)
  · by_cases he : (moveGrid b.grid (lowerStr dir)).1 = b.grid
    · simp only [Board.move, if_pos hd, if_pos he]
      exact moveGrid_noop_gain b.grid _ hd hwf he
    · simp only [Board.move, if_pos hd, if_neg he] at h
      simp at h
  · simp only [Board.move, if_neg hd]

/-- **C10 witness**: the packed board's left move reports no change and no
gain. -/
theorem claim10_no_move_no_gain_witness :
    ((packedBoard.move "a").2).score_gain = 0 :=
  claim10_no_move_no_gain packedBoard "a" ⟨rfl, by decide⟩ (by decide)

/-! ## Mirror symmetry helpers (claim C8) -/

theorem getD_map_reverse (g : Grid) (i : Nat) :
    (g.map List.reverse).getD i [] = (g.getD i []).reverse := by
  induction g generalizing i with
  | nil => simp
  | cons a l ih =>
    cases i with
    | zero => simp
    | succ n => simpa using ih n

theorem moveGrid_a_fst (g : Grid) :
    (moveGrid g "a").1 =
      (((g.set 0 (moveLine (g.getD 0 [])).1).set 1 (moveLine (g.getD 1 [])).1).set 2
        (moveLine (g.getD 2 [])).1).set 3 (moveLine (g.getD 3 [])).1 := by
  rw [moveGrid_eq_steps]
  simp only [moveStep, line_of_a, write_of_a]
  rw [getD_set_ne g 0 1 (by omega),
    getD_set_ne _ 1 2 (by omega), getD_set_ne g 0 2 (by omega),
    getD_set_ne _ 2 3 (by omega), getD_set_ne _ 1 3 (by omega),
    getD_set_ne g 0 3 (by omega)]

theorem moveGrid_d_fst (g : Grid) :
    (moveGrid g "d").1 =
      (((g.set 0 ((moveLine ((g.getD 0 []).reverse)).1).reverse).set 1
          ((moveLine ((g.getD 1 []).reverse)).1).reverse).set 2
          ((moveLine ((g.getD 2 []).reverse)).1).reverse).set 3
          ((moveLine ((g.getD 3 []).reverse)).1).reverse := by
  rw [moveGrid_eq_steps]
  simp only [moveStep, line_of_d, write_of_d]
  rw [getD_set_ne g 0 1 (by omega),
    getD_set_ne _ 1 2 (by omega), getD_set_ne g 0 2 (by omega),
    getD_set_ne _ 2 3 (by omega), getD_set_ne _ 1 3 (by omega),
    getD_set_ne g 0 3 (by omega)]

/-- **C8**: a right move followed by mirroring the grid horizontally equals
mirroring first and then moving left — the line-extraction/write-back
symmetry of the slide-and-merge transformation, before any tile spawn. -/
theorem claim8_mirror_symmetry (g : Grid) :
    ((moveGrid g "d").1).map List.reverse = (moveGrid (g.map List.reverse) "a").1 := by
  rw [moveGrid_d_fst, moveGrid_a_fst]
  simp only [List.map_set, List.reverse_reverse, getD_map_reverse]

/-- **C5**: two engines built on identical streams and driven by the same
command sequence traverse identical (grid, score) trajectories; `restart`
zeroes the score and spawns two tiles while CONTINUING the stream — its
generator keeps the same draw functions and has consumed exactly the four
draws of the two spawns, instead of being reseeded. -/
theorem claim5_determinism (r1 r2 : Rng) (h : r1 = r2) (cs : List Cmd) :
    trajectory (Board.init r1) cs = trajectory (Board.init r2) cs
    ∧ ∀ b : Board, (b.restart).score = 0
        ∧ ((b.restart).rng).vals = b.rng.vals
        ∧ ((b.restart).rng).floats = b.rng.floats
        ∧ ((b.restart).rng).pos = b.rng.pos + 4 := by
  subst h
  exact ⟨rfl, fun b => ⟨restart_score b, (restart_stream b).1,
    (restart_stream b).2.1, (restart_stream b).2.2⟩⟩

/-- **C5 witness**: a concrete seed and command sequence. -/
theorem claim5_determinism_witness :
    trajectory (Board.init rngZero) [Cmd.move "a", Cmd.restart]
      = trajectory (Board.init rngZero) [Cmd.move "a", Cmd.restart]
    ∧ ∀ b : Board, (b.restart).score = 0
        ∧ ((b.restart).rng).vals = b.rng.vals
        ∧ ((b.restart).rng).floats = b.rng.floats
        ∧ ((b.restart).rng).pos = b.rng.pos + 4 :=
  claim5_determinism rngZero rngZero rfl [Cmd.move "a", Cmd.restart]

/-- **C3**: since the last restart, the cumulative score equals the sum of
all merge events (each merge of two `v`-tiles contributes `2v`); each move's
reported `score_gain` is exactly the sum of the merge events of that one
move; and the score never decreases. -/
theorem claim3_score_accounting (b : Board) (ds : List String) :
    (runMoves (b.restart) ds).score = (runEvents (b.restart) ds).sum
    ∧ (∀ b2 : Board, ∀ d : String, ((b2.move d).2).score_gain = (b2.moveEvents d).sum)
    ∧ (∀ b2 : Board, ∀ d : String, b2.score ≤ ((b2.move d).1).score) := by
  refine ⟨?_, move_gain_events, move_score_mono⟩
  rw [runMoves_score ds (b.restart) (restart_inv b).1, restart_score]
  simp

/-- **C4**: `has_moves` is true exactly when an empty cell exists or two
horizontally- or vertically-adjacent cells hold equal non-zero values (it is
a pure function of the grid), and it is false on the full checkerboard. -/
theorem claim4_has_moves (g : Grid) (hwf : Wf g) :
    (has_moves g = true ↔
      (∃ r, r < 4 ∧ ∃ c, c < 4 ∧ getCell g r c = 0)
      ∨ (∃ r, r < 4 ∧ ∃ c, c < 4 ∧ getCell g r c ≠ 0
          ∧ ((r + 1 < 4 ∧ getCell g (r + 1) c = getCell g r c)
             ∨ (c + 1 < 4 ∧ getCell g r (c + 1) = getCell g r c))))
    ∧ has_moves [[2, 4, 2, 4], [4, 2, 4, 2], [2, 4, 2, 4], [4, 2, 4, 2]] = false := by
  refine ⟨?_, by decide⟩
  unfold has_moves
  by_cases hz : (g.any fun row => row.contains 0) = true
  · rw [if_pos hz]
    simp only [true_iff]
    exact Or.inl ((any_zero_iff g hwf).1 hz)
  · rw [if_neg hz]
    have hnz : ∀ r, r < 4 → ∀ c, c < 4 → getCell g r c ≠ 0 := by
      intro r hr c hc h0
      exact hz ((any_zero_iff g hwf).2 ⟨r, hr, c, hc, h0⟩)
    constructor
    · intro hadj
      simp only [List.any_eq_true, List.mem_range, Bool.or_eq_true,
        Bool.and_eq_true, decide_eq_true_eq, beq_iff_eq] at hadj
      obtain ⟨r, hr, c, hc, hcc⟩ := hadj
      exact Or.inr ⟨r, hr, c, hc, hnz r hr c hc, hcc⟩
    · intro hor
      simp only [List.any_eq_true, List.mem_range, Bool.or_eq_true,
        Bool.and_eq_true, decide_eq_true_eq, beq_iff_eq]
      rcases hor with ⟨r, hr, c, hc, h0⟩ | ⟨r, hr, c, hc, _, hadj⟩
      · exact absurd h0 (hnz r hr c hc)
      · exact ⟨r, hr, c, hc, hadj⟩

/-- **C4 witness**: the literal checkerboard grid has no moves. -/
theorem claim4_has_moves_witness :
    has_moves [[2, 4, 2, 4], [4, 2, 4, 2], [2, 4, 2, 4], [4, 2, 4, 2]] = false :=
  (claim4_has_moves [[2, 4, 2, 4], [4, 2, 4, 2], [2, 4, 2, 4], [4, 2, 4, 2]]
    ⟨rfl, by decide⟩).2

/-- **C6**: `_spawn_random_tile` is a total no-op when no empty cell exists;
otherwise it changes exactly one previously-empty cell, setting it to 4 when
the float draw is below 0.10 and to 2 otherwise, and leaves every other cell
untouched. -/
theorem claim6_spawn (g : Grid) (rng : Rng) (hwf : Wf g) :
    (emptyCells g = [] → spawnRandomTile g rng = (g, rng))
    ∧ (emptyCells g ≠ [] →
        ∃ r c, r < 4 ∧ c < 4 ∧ getCell g r c = 0
          ∧ getCell (spawnRandomTile g rng).1 r c
              = (if rng.floats (rng.pos + 1) < 1 / 10 then 4 else 2)
          ∧ ∀ r2 c2, (r2 ≠ r ∨ c2 ≠ c) →
              getCell (spawnRandomTile g rng).1 r2 c2 = getCell g r2 c2) := by
  refine ⟨spawn_of_no_empty g rng, ?_⟩
  intro h
  have hmem := spawn_cell_mem g rng h
  rw [mem_emptyCells] at hmem
  obtain ⟨h1, h2, h3⟩ := hmem
  refine ⟨_, _, h1, h2, h3, ?_, ?_⟩
  · rw [spawn_of_empty g rng h]
    exact getCell_setCell_self g _ _ _ hwf h1 h2
  · intro r2 c2 hne
    rw [spawn_of_empty g rng h]
    exact getCell_setCell_ne _ _ _ _ _ _ hne

/-- **C6 witness**: a spawn on the empty grid with the all-zero generator. -/
theorem claim6_spawn_witness :
    (emptyCells emptyGrid = [] → spawnRandomTile emptyGrid rngZero = (emptyGrid, rngZero))
    ∧ (emptyCells emptyGrid ≠ [] →
        ∃ r c, r < 4 ∧ c < 4 ∧ getCell emptyGrid r c = 0
          ∧ getCell (spawnRandomTile emptyGrid rngZero).1 r c
              = (if rngZero.floats (rngZero.pos + 1) < 1 / 10 then 4 else 2)
          ∧ ∀ r2 c2, (r2 ≠ r ∨ c2 ≠ c) →
              getCell (spawnRandomTile emptyGrid rngZero).1 r2 c2
                = getCell emptyGrid r2 c2) :=
  claim6_spawn emptyGrid rngZero ⟨rfl, by decide⟩

/-- **C9**: in every state reachable from construction by moves and
restarts, the grid is a 4×4 matrix (of naturals, hence non-negative) whose
non-zero cells are powers of two reachable by doubling from 2. -/
theorem claim9_reachable_inv (rng : Rng) (cs : List Cmd) :
    GridInv ((runCmds (Board.init rng) cs).grid) := by
  have hpres : ∀ cs2 : List Cmd, ∀ b : Board, GridInv b.grid →
      GridInv ((runCmds b cs2).grid) := by
    intro cs2
    induction cs2 with
    | nil => intro b h; exact h
    | cons c cs2 ih =>
      intro b h
      have hstep : runCmds b (c :: cs2) = runCmds (b.step c) cs2 := rfl
      rw [hstep]
      cases c with
      | move d => exact ih _ (move_inv b d h)
      | restart => exact ih _ (restart_inv b)
  exact hpres cs _ (init_inv rng)

/-- **C3 witness**: score accounting instantiated on a concrete board and
move sequence. -/
theorem claim3_score_accounting_witness :
    (runMoves (packedBoard.restart) ["d"]).score
      = (runEvents (packedBoard.restart) ["d"]).sum :=
  (claim3_score_accounting packedBoard ["d"]).1

/-- **C8 witness**: mirror symmetry on a concrete grid. -/
theorem claim8_mirror_symmetry_witness :
    ((moveGrid [[2, 0, 0, 2], [4, 4, 0, 0], [2, 2, 2, 2], [0, 0, 0, 8]] "d").1).map
        List.reverse
      = (moveGrid ([[2, 0, 0, 2], [4, 4, 0, 0], [2, 2, 2, 2], [0, 0, 0, 8]].map
          List.reverse) "a").1 :=
  claim8_mirror_symmetry [[2, 0, 0, 2], [4, 4, 0, 0], [2, 2, 2, 2], [0, 0, 0, 8]]

/-- **C9 witness**: the invariant on a concrete reachable state. -/
theorem claim9_reachable_inv_witness :
    GridInv ((runCmds (Board.init rngZero) [Cmd.move "a", Cmd.restart]).grid) :=
  claim9_reachable_inv rngZero [Cmd.move "a", Cmd.restart]
